import Mathlib

/-!
Shallow embedding of the OpenOffice VC-plugin pipeline
(`src/generate_vc_plugin.py`, `src/fetch_openoffice_advisory.py`).

Python strings are modelled as lists of characters (`PyStr`).  The regex
classes `\d` and `\s` are modelled over ASCII, and the HTML documents
handled by BeautifulSoup are modelled by their relevant structure: the
bulletin as the ordered list of `h3` headings, each with its optional
next `ul` sibling of list items; a detail page as the ordered list of
stripped paragraph texts selected by `#content p`.  Network fetches are
oracles `Nat → Option Page` mapping the attempt number to the fetched
page (or a transport failure).  File writes are modelled by the values
written (and, for the end-to-end run, by an explicit event trace).
-/

namespace VCPlugin

/-- Python strings, modelled as lists of characters. -/
abbrev PyStr := List Char

/-- Python regex class `\d`, modelled over ASCII digits. -/
def pyDigit (c : Char) : Bool := c.isDigit

/-- Python regex class `\s`, modelled over ASCII whitespace. -/
def pyWs (c : Char) : Bool :=
  c = ' ' || c = '\t' || c = '\n' || c = '\x0d' || c = '\x0b' || c = '\x0c'

/-- Step `name.replace("/", "_")` of `safe_filename`. -/
def replSlash (s : PyStr) : PyStr := s.map (fun c => if c = '/' then '_' else c)

/-- Step `re.sub(r"\s+", "_", name)` of `safe_filename`: each maximal
whitespace run becomes a single underscore.  The Boolean flag records
whether the previous character belonged to a whitespace run. -/
def collapseWs : Bool → PyStr → PyStr
  | _, [] => []
  | inRun, c :: cs =>
    if pyWs c then
      if inRun then collapseWs true cs else '_' :: collapseWs true cs
    else c :: collapseWs false cs

/-- Character class kept by `re.sub(r"[^A-Za-z0-9_.-]", "", name)`. -/
def fnameChar (c : Char) : Bool :=
  c.isAlpha || c.isDigit || c = '_' || c = '.' || c = '-'

/-- Step `name.strip("_")` of `safe_filename`. -/
def stripUnderscores (s : PyStr) : PyStr :=
  ((s.dropWhile (fun c => c = '_')).reverse.dropWhile (fun c => c = '_')).reverse

/-- Function `safe_filename` (identical in both source files). -/
def safe_filename (s : PyStr) : PyStr :=
  stripUnderscores ((collapseWs false (replSlash s)).filter fnameChar)

/-- Greedy match of the regex `CVE-\d{4}-\d+` at the start of `s`:
returns the matched substring together with the remaining suffix.  This
is the single-position matching step underlying both
`re.findall(r"CVE-\d{4}-\d+", text)` and the anchored pydantic pattern
`^CVE-\d{4}-\d+$`. -/
def matchCveAt (s : PyStr) : Option (PyStr × PyStr) :=
  if s.take 4 = ['C', 'V', 'E', '-'] then
    if ((s.drop 4).take 4).length = 4 ∧ ((s.drop 4).take 4).all pyDigit = true then
      if (s.drop 8).take 1 = ['-'] then
        if (s.drop 9).takeWhile pyDigit = [] then none
        else some (s.take 9 ++ (s.drop 9).takeWhile pyDigit, (s.drop 9).dropWhile pyDigit)
      else none
    else none
  else none

/-- Fuel-indexed scan of `re.findall`: at each position try the greedy
match; on success emit it and continue after it, otherwise advance one
character.  The fuel is instantiated with the string length. -/
def extractGo : Nat → PyStr → List PyStr
  | 0, _ => []
  | _ + 1, [] => []
  | fuel + 1, c :: cs =>
    match matchCveAt (c :: cs) with
    | some (m, rest) => m :: extractGo fuel rest
    | none => extractGo fuel cs

/-- Function `extract_cve_ids` (identical in both source files):
`re.findall(r"CVE-\d{4}-\d+", text)`. -/
def extract_cve_ids (s : PyStr) : List PyStr := extractGo s.length s

/-- The anchored pydantic field pattern `^CVE-\d{4}-\d+$` of the `CVE`
model: a full-string match. -/
def cveExact (s : PyStr) : Bool :=
  match matchCveAt s with
  | some (_, rest) => rest.isEmpty
  | none => false

/-- Declarative reading of the regex `CVE-\d{4}-\d+` as a pattern on
whole strings: the literal prefix, exactly four digits, a dash, then at
least one digit. -/
def cveDecl (m : PyStr) : Prop :=
  ∃ y n : PyStr, m = 'C' :: 'V' :: 'E' :: '-' :: (y ++ '-' :: n) ∧
    y.length = 4 ∧ y.all pyDigit = true ∧ n ≠ [] ∧ n.all pyDigit = true

/-- A list of strings occurs, in order and without overlap, inside `s`. -/
def Interleaves : PyStr → List PyStr → Prop
  | _, [] => True
  | s, m :: ms => ∃ pre rest, s = pre ++ m ++ rest ∧ Interleaves rest ms

/-- A match of the regex `CVE-\d{4}-\d+` begins at the start of `s`. -/
def StartsMatch (s : PyStr) : Prop :=
  ∃ m rest : PyStr, s = m ++ rest ∧ cveDecl m

/-- Declarative reading of `re.findall` for the CVE regex, following the
spec's words: the output lists every non-overlapping match, in order of
first appearance, each taken greedily.  `[]` is correct only when no
match starts at any position; `m :: ms` is correct only when `m` is a
pattern match whose following character is not a digit (greediness), no
match starts at any earlier position (order of first appearance and
completeness), and `ms` is correct for the remaining suffix
(non-overlap). -/
def FindAllDecl : PyStr → List PyStr → Prop
  | s, [] => ∀ p1 p2 : PyStr, s = p1 ++ p2 → ¬StartsMatch p2
  | s, m :: ms => ∃ pre rest : PyStr,
      s = pre ++ (m ++ rest) ∧ cveDecl m ∧
      (∀ (d : Char) (r' : PyStr), rest = d :: r' → pyDigit d = false) ∧
      (∀ p1 p2 : PyStr, pre = p1 ++ p2 → p2 ≠ [] →
        ¬StartsMatch (p2 ++ (m ++ rest))) ∧
      FindAllDecl rest ms

/-- A fetched detail page: the ordered list of stripped paragraph texts
selected by `soup.select("#content p")`. -/
abbrev Page := List PyStr

/-- An HTML anchor: its optional `href` attribute and its stripped text. -/
structure Anchor where
  href : Option PyStr
  text : PyStr
deriving DecidableEq

/-- A bulletin list item: its first anchor (`li.find("a")`), if any, and
its full stripped text (`li.get_text(strip=True)`). -/
structure LItem where
  anchor : Option Anchor
  text : PyStr
deriving DecidableEq

/-- A bulletin `h3` heading: its stripped text, and the list items of
its next `ul` sibling (`header.find_next_sibling("ul")`) when one
exists. -/
structure Heading where
  text : PyStr
  nextUl : Option (List LItem)
deriving DecidableEq

/-- The bulletin document: its `h3` headings in document order. -/
abbrev Bulletin := List Heading

/-- A raw parsed vulnerability reference, as appended by
`parse_vulnerabilities`. -/
structure RawRef where
  cve_id : PyStr
  version : PyStr
  summary : PyStr
  link : PyStr
deriving DecidableEq

/-- Contribution of one list item inside the loop body of
`parse_vulnerabilities`: the item is skipped when it has no anchor or
the anchor has no (or an empty, hence falsy) `href`; otherwise it
yields one reference per identifier extracted from the anchor text.
`ujoin` models `urllib.parse.urljoin` and `base` the bulletin URL. -/
def item_refs (ujoin : PyStr → PyStr → PyStr) (base : PyStr) (version : PyStr)
    (li : LItem) : List RawRef :=
  match li.anchor with
  | none => []
  | some a =>
    match a.href with
    | none => []
    | some href =>
      if href = [] then []
      else (extract_cve_ids a.text).map
        (fun cid => ⟨cid, version, li.text, ujoin base href⟩)

/-- Contribution of one `h3` heading: zero references when no `ul`
sibling follows, otherwise the concatenated item contributions in
document order. -/
def heading_refs (ujoin : PyStr → PyStr → PyStr) (base : PyStr) (h : Heading) :
    List RawRef :=
  match h.nextUl with
  | none => []
  | some lis => lis.flatMap (item_refs ujoin base h.text)

/-- Function `parse_vulnerabilities` (identical in both source files). -/
def parse_vulnerabilities (ujoin : PyStr → PyStr → PyStr) (base : PyStr)
    (doc : Bulletin) : List RawRef :=
  doc.flatMap (heading_refs ujoin base)

/-- Python `" ".join(texts)`. -/
def joinSpaces : List PyStr → PyStr
  | [] => []
  | [p] => p
  | p :: ps => p ++ ' ' :: joinSpaces ps

/-- The per-CVE JSON record written by `fetch_and_save_cve_json` and
`fetch_and_save_cve`. -/
structure SavedCve where
  cve_id : PyStr
  affected_version : PyStr
  description : PyStr
  source_url : PyStr
deriving DecidableEq

/-- Record built by a successful fetch attempt: the description is the
joined paragraph texts, falling back to the reference summary when the
joined string is empty (falsy). -/
def mkSavedCve (r : RawRef) (page : Page) : SavedCve :=
  { cve_id := r.cve_id
    affected_version := r.version
    description := if joinSpaces page = [] then r.summary else joinSpaces page
    source_url := r.link }

/-- Retry loop of `fetch_and_save_cve_json`: the first argument of the
recursion is the current 1-based attempt number, the second the number
of remaining attempts.  Returns the saved record (`none` on terminal
failure, modelling the `return None` fall-through) paired with the
number of fetch calls made. -/
def fetchGo (fetch : Nat → Option Page) (r : RawRef) : Nat → Nat → Option SavedCve × Nat
  | _, 0 => (none, 0)
  | attempt, rem + 1 =>
    match fetch attempt with
    | some page => (some (mkSavedCve r page), 1)
    | none =>
      let res := fetchGo fetch r (attempt + 1) rem
      (res.1, res.2 + 1)

/-- Function `fetch_and_save_cve_json` (and the identical retry loop of
`fetch_and_save_cve`): `for attempt in range(1, retries + 1)`. -/
def fetch_and_save_cve_json (fetch : Nat → Option Page) (r : RawRef)
    (retries : Nat := 3) : Option SavedCve × Nat :=
  fetchGo fetch r 1 retries

/-- Default for a missing `cve_id` or `affected_version` key. -/
def unknownStr : PyStr := "UNKNOWN".data

/-- Default for a missing `description` key. -/
def noDescStr : PyStr := "No description available".data

/-- A parsed per-CVE JSON object as re-read by `generate_cve_content`.
Each field distinguishes a missing key (`none`), a key present with
JSON `null` (`some none`), and a key present with a string. -/
structure RawJson where
  cve_id : Option (Option PyStr)
  affected_version : Option (Option PyStr)
  description : Option (Option PyStr)
  source_url : Option (Option PyStr)
deriving DecidableEq

/-- Python `data.get(key, default)`. -/
def pyGet (f : Option (Option PyStr)) (d : PyStr) : Option PyStr :=
  match f with
  | none => some d
  | some v => v

/-- Python `data.get(key)` (default `None`). -/
def pyGetOpt (f : Option (Option PyStr)) : Option PyStr :=
  match f with
  | none => none
  | some v => v

/-- Models pydantic `HttpUrl` well-formedness: an `http` or `https`
scheme followed by a non-empty remainder. -/
def isHttpUrl (u : PyStr) : Bool :=
  decide ((u.take 7 = "http://".data ∧ u.drop 7 ≠ []) ∨
    (u.take 8 = "https://".data ∧ u.drop 8 ≠ []))

/-- The pydantic `CVE` model of `generate_vc_plugin.py`. -/
structure CVE where
  cve_id : PyStr
  affected_version : PyStr
  description : PyStr
  source_url : Option PyStr
deriving DecidableEq

/-- Pydantic construction `CVE(...)`: every `str` field must actually be
a string (a `None` value raises a validation error), `cve_id` must
match the anchored pattern, and `source_url` is optional but must be a
well-formed URL when present.  A raised validation error is caught by
`generate_cve_content`, which then returns `None`. -/
def mkCVE (cid av desc url : Option PyStr) : Option CVE :=
  match cid, av, desc with
  | some c, some a, some d =>
    if cveExact c = true then
      match url with
      | none => some ⟨c, a, d, none⟩
      | some u => if isHttpUrl u = true then some ⟨c, a, d, some u⟩ else none
    else none
  | _, _, _ => none

/-- Validation part of `generate_cve_content`: field defaults via
`data.get` and pydantic `CVE` construction.  The input is the parsed
JSON object; unparseable JSON (`SerializationFailure`) is outside this
model. -/
def generate_cve_content (j : RawJson) : Option CVE :=
  mkCVE (pyGet j.cve_id unknownStr) (pyGet j.affected_version unknownStr)
    (pyGet j.description noDescStr) (pyGetOpt j.source_url)

/-- Constant `PRODUCT_NAME`. -/
def productName : PyStr := "OpenOffice".data

/-- The templated fix text, with `PRODUCT_NAME` interpolated. -/
def fixText : PyStr := "Upgrade to the latest supported OpenOffice version.".data

/-- Rendering of `str(cve_obj.source_url) if cve_obj.source_url else ""`. -/
def urlText (u : Option PyStr) : PyStr :=
  match u with
  | none => []
  | some s => s

/-- The `.xml` vulnerability document: subelement tags and texts in
source order. -/
def render_xml (c : CVE) : List (PyStr × PyStr) :=
  [("ID".data, c.cve_id), ("PRODUCT".data, productName),
   ("AFFECTED_VERSION".data, c.affected_version),
   ("DESCRIPTION".data, c.description),
   ("REFERENCE".data, urlText c.source_url)]

/-- The `.sol` remediation document. -/
def render_sol (c : CVE) : List (PyStr × PyStr) :=
  [("CVE".data, c.cve_id), ("FIX".data, fixText)]

/-- The `.vck` plugin-entry document; `now` models
`datetime.utcnow().isoformat()` at rendering time. -/
def render_vck (c : CVE) (now : PyStr) : List (PyStr × PyStr) :=
  [("ID".data, c.cve_id), ("PRODUCT".data, productName),
   ("AFFECTED_VERSION".data, c.affected_version),
   ("DESCRIPTION".data, c.description),
   ("REFERENCE".data, urlText c.source_url),
   ("GENERATED_AT".data, now ++ ['Z'])]

/-- The three per-record documents written by one run of the rendering
part of `generate_cve_content` at time `now`. -/
def render_all (c : CVE) (now : PyStr) :
    List (PyStr × PyStr) × List (PyStr × PyStr) × List (PyStr × PyStr) :=
  (render_xml c, render_sol c, render_vck c now)

/-- Lookup of a tag's text in a rendered document. -/
def lookupTag (k : PyStr) : List (PyStr × PyStr) → Option PyStr
  | [] => none
  | (a, b) :: rest => if a = k then some b else lookupTag k rest

/-- Re-reading a saved per-CVE JSON file: every key is present and
holds a string. -/
def SavedCve.toRawJson (s : SavedCve) : RawJson :=
  ⟨some (some s.cve_id), some (some s.affected_version),
   some (some s.description), some (some s.source_url)⟩

/-- File-write events of a run. -/
inductive Ev where
  | recJson : PyStr → Ev
  | recArtifacts : PyStr → Ev
  | aggregate : Nat → Ev
deriving DecidableEq

/-- Whether an event is the product-level aggregate write. -/
def isAggregate : Ev → Bool
  | .aggregate _ => true
  | _ => false

/-- Processing of a single raw reference inside `main`: detail fetch
with 3 attempts; on success the JSON record is written and re-read, and
validation plus per-record rendering runs. -/
def process_one (fetch : Nat → Option Page) (r : RawRef) : Option CVE × List Ev :=
  match (fetch_and_save_cve_json fetch r 3).1 with
  | none => (none, [])
  | some saved =>
    match generate_cve_content saved.toRawJson with
    | none => (none, [Ev.recJson saved.cve_id])
    | some c => (some c, [Ev.recJson saved.cve_id, Ev.recArtifacts c.cve_id])

/-- Function `main` of `generate_vc_plugin.py` after the bulletin fetch:
parse, process each reference in order, then write the product-level
aggregate with `TOTAL_CVES = len(validated_cves)` once at the end.
Returns the validated records and the write-event trace. -/
def main_run (fetch : RawRef → Nat → Option Page) (ujoin : PyStr → PyStr → PyStr)
    (base : PyStr) (doc : Bulletin) : List CVE × List Ev :=
  let vulns := parse_vulnerabilities ujoin base doc
  let acc := vulns.foldl
    (fun (acc : List CVE × List Ev) r =>
      let pr := process_one (fetch r) r
      (acc.1 ++ pr.1.toList, acc.2 ++ pr.2))
    ([], [])
  (acc.1, acc.2 ++ [Ev.aggregate acc.1.length])

theorem matchCveAt_spec {s m rest : PyStr} (h : matchCveAt s = some (m, rest)) :
    s = m ++ rest ∧
      ∃ y n : PyStr, m = 'C' :: 'V' :: 'E' :: '-' :: (y ++ '-' :: n) ∧
        y.length = 4 ∧ y.all pyDigit = true ∧ n ≠ [] ∧ n.all pyDigit = true := by
  unfold matchCveAt at h
  split_ifs at h with h1 h2 h3 h4
  simp only [Option.some.injEq, Prod.mk.injEq] at h
  obtain ⟨hm, hr⟩ := h
  have e3 : (s.drop 4).drop 4 = s.drop 8 := by rw [List.drop_drop]
  have ht9 : s.take 9 = ['C', 'V', 'E', '-'] ++ ((s.drop 4).take 4 ++ ['-']) := by
    have e1 : s.take 9 = s.take 4 ++ (s.drop 4).take 5 := List.take_add s 4 5
    have e2 : (s.drop 4).take 5 = (s.drop 4).take 4 ++ ((s.drop 4).drop 4).take 1 :=
      List.take_add (s.drop 4) 4 1
    rw [e1, e2, e3, h1, h3]
  subst hm
  subst hr
  constructor
  · calc s = s.take 9 ++ s.drop 9 := (List.take_append_drop 9 s).symm
      _ = s.take 9 ++ ((s.drop 9).takeWhile pyDigit ++ (s.drop 9).dropWhile pyDigit) := by
          rw [List.takeWhile_append_dropWhile]
      _ = s.take 9 ++ (s.drop 9).takeWhile pyDigit ++ (s.drop 9).dropWhile pyDigit := by
          rw [List.append_assoc]
  · refine ⟨(s.drop 4).take 4, (s.drop 9).takeWhile pyDigit, ?_, h2.1, h2.2, h4, ?_⟩
    · rw [ht9]
      simp
    · exact List.all_takeWhile

theorem matchCveAt_m_ne_nil {s m rest : PyStr} (h : matchCveAt s = some (m, rest)) :
    m ≠ [] := by
  obtain ⟨-, y, n, hm, -⟩ := matchCveAt_spec h
  simp [hm]

theorem extractGo_congr : ∀ (f1 f2 : Nat) (s : PyStr), s.length ≤ f1 → s.length ≤ f2 →
    extractGo f1 s = extractGo f2 s := by
  intro f1
  induction f1 with
  | zero =>
    intro f2 s hs1 _
    have hnil : s = [] := List.eq_nil_of_length_eq_zero (Nat.le_zero.mp hs1)
    subst hnil
    cases f2 <;> rfl
  | succ f1 ih =>
    intro f2 s hs1 hs2
    match s, f2 with
    | [], f2 => cases f2 <;> rfl
    | c :: cs, 0 => exact absurd hs2 (by simp)
    | c :: cs, f2 + 1 =>
      cases h : matchCveAt (c :: cs) with
      | some pr =>
        obtain ⟨m, rest⟩ := pr
        have hlen : rest.length ≤ cs.length := by
          have h1 : (c :: cs).length = m.length + rest.length := by
            rw [(matchCveAt_spec h).1, List.length_append]
          have h2 : 0 < m.length := List.length_pos.mpr (matchCveAt_m_ne_nil h)
          simp only [List.length_cons] at h1
          omega
        simp only [List.length_cons] at hs1 hs2
        simp only [extractGo, h]
        exact congrArg (m :: ·) (ih f2 rest (le_trans hlen (by omega)) (le_trans hlen (by omega)))
      | none =>
        simp only [List.length_cons] at hs1 hs2
        simp only [extractGo, h]
        exact ih f2 cs (by omega) (by omega)

theorem extract_cve_ids_nil : extract_cve_ids [] = [] := rfl

theorem extract_cve_ids_cons_some {c : Char} {cs m rest : PyStr}
    (h : matchCveAt (c :: cs) = some (m, rest)) :
    extract_cve_ids (c :: cs) = m :: extract_cve_ids rest := by
  have hlen : rest.length ≤ cs.length := by
    have h1 : (c :: cs).length = m.length + rest.length := by
      rw [(matchCveAt_spec h).1, List.length_append]
    have h2 : 0 < m.length := List.length_pos.mpr (matchCveAt_m_ne_nil h)
    simp only [List.length_cons] at h1
    omega
  show extractGo (c :: cs).length (c :: cs) = _
  simp only [List.length_cons, extractGo, h]
  exact congrArg (m :: ·) (extractGo_congr cs.length rest.length rest hlen le_rfl)

theorem extract_cve_ids_cons_none {c : Char} {cs : PyStr}
    (h : matchCveAt (c :: cs) = none) :
    extract_cve_ids (c :: cs) = extract_cve_ids cs := by
  show extractGo (c :: cs).length (c :: cs) = _
  simp only [List.length_cons, extractGo, h]
  rfl

theorem interleaves_cons_char {s : PyStr} {ms : List PyStr} (c : Char)
    (h : Interleaves s ms) : Interleaves (c :: s) ms := by
  cases ms with
  | nil => trivial
  | cons m ms =>
    obtain ⟨pre, rest, hs, hi⟩ := h
    exact ⟨c :: pre, rest, by rw [hs]; rfl, hi⟩

theorem extract_sound_aux : ∀ (k : Nat) (s : PyStr), s.length ≤ k →
    (∀ m ∈ extract_cve_ids s, cveDecl m) ∧ Interleaves s (extract_cve_ids s) := by
  intro k
  induction k with
  | zero =>
    intro s hs
    have hnil : s = [] := List.eq_nil_of_length_eq_zero (Nat.le_zero.mp hs)
    subst hnil
    exact ⟨by simp [extract_cve_ids_nil], trivial⟩
  | succ k ih =>
    intro s hs
    cases s with
    | nil => exact ⟨by simp [extract_cve_ids_nil], trivial⟩
    | cons c cs =>
      cases h : matchCveAt (c :: cs) with
      | some pr =>
        obtain ⟨m, rest⟩ := pr
        obtain ⟨hseq, y, n, hm, hy4, hyd, hn, hnd⟩ := matchCveAt_spec h
        have hrl : rest.length ≤ k := by
          have h1 : (c :: cs).length = m.length + rest.length := by
            rw [hseq, List.length_append]
          have h2 : 0 < m.length := List.length_pos.mpr (matchCveAt_m_ne_nil h)
          simp only [List.length_cons] at h1 hs
          omega
        obtain ⟨ihd, ihi⟩ := ih rest hrl
        rw [extract_cve_ids_cons_some h]
        constructor
        · intro x hx
          rcases List.mem_cons.mp hx with hx | hx
          · exact hx ▸ ⟨y, n, hm, hy4, hyd, hn, hnd⟩
          · exact ihd x hx
        · exact ⟨[], rest, by simpa using hseq, ihi⟩
      | none =>
        have hcl : cs.length ≤ k := by
          simp only [List.length_cons] at hs
          omega
        obtain ⟨ihd, ihi⟩ := ih cs hcl
        rw [extract_cve_ids_cons_none h]
        exact ⟨ihd, interleaves_cons_char c ihi⟩

theorem cveExact_decl {s : PyStr} (h : cveExact s = true) : cveDecl s := by
  unfold cveExact at h
  cases hm : matchCveAt s with
  | none => rw [hm] at h; exact absurd h (by simp)
  | some pr =>
    obtain ⟨m, rest⟩ := pr
    rw [hm] at h
    have hrest : rest = [] := by simpa [List.isEmpty_iff] using h
    subst hrest
    obtain ⟨hseq, y, n, hmm, h4, hyd, hn, hnd⟩ := matchCveAt_spec hm
    rw [List.append_nil] at hseq
    exact ⟨y, n, hseq.trans hmm, h4, hyd, hn, hnd⟩

theorem cveDecl_exact {s : PyStr} (h : cveDecl s) : cveExact s = true := by
  obtain ⟨y, n, hs, h4, hyd, hn, hnd⟩ := h
  have hyall : ∀ a ∈ y, pyDigit a = true := List.all_eq_true.mp hyd
  have hnall : ∀ a ∈ n, pyDigit a = true := List.all_eq_true.mp hnd
  subst hs
  have hd4 : (('C' :: 'V' :: 'E' :: '-' :: (y ++ '-' :: n)) : PyStr).drop 4 = y ++ '-' :: n := rfl
  have ht4 : (('C' :: 'V' :: 'E' :: '-' :: (y ++ '-' :: n)) : PyStr).take 4 = ['C', 'V', 'E', '-'] := rfl
  have hyt : (y ++ '-' :: n).take 4 = y := by
    rw [← h4]
    exact List.take_left y ('-' :: n)
  have hyd' : (y ++ '-' :: n).drop 4 = '-' :: n := by
    rw [← h4]
    exact List.drop_left y ('-' :: n)
  have hd8 : (('C' :: 'V' :: 'E' :: '-' :: (y ++ '-' :: n)) : PyStr).drop 8 = '-' :: n := by
    have : (('C' :: 'V' :: 'E' :: '-' :: (y ++ '-' :: n)) : PyStr).drop 8 =
        ((('C' :: 'V' :: 'E' :: '-' :: (y ++ '-' :: n)) : PyStr).drop 4).drop 4 := by
      rw [List.drop_drop]
    rw [this, hd4, hyd']
  have hd9 : (('C' :: 'V' :: 'E' :: '-' :: (y ++ '-' :: n)) : PyStr).drop 9 = n := by
    have : (('C' :: 'V' :: 'E' :: '-' :: (y ++ '-' :: n)) : PyStr).drop 9 =
        ((('C' :: 'V' :: 'E' :: '-' :: (y ++ '-' :: n)) : PyStr).drop 8).drop 1 := by
      rw [List.drop_drop]
    rw [this, hd8]
    rfl
  have htw : n.takeWhile pyDigit = n := List.takeWhile_eq_self_iff.mpr hnall
  have hdw : n.dropWhile pyDigit = [] := List.dropWhile_eq_nil_iff.mpr hnall
  unfold cveExact matchCveAt
  rw [ht4, hd4, hyt, hd8, hd9, htw, hdw]
  simp [h4, hyd, hn]

theorem head_dropWhile_false (p : Char → Bool) :
    ∀ (l : PyStr) (d : Char) (r' : PyStr), l.dropWhile p = d :: r' → p d = false := by
  intro l
  induction l with
  | nil =>
    intro d r' h
    exact absurd h (by simp)
  | cons c cs ih =>
    intro d r' h
    rw [List.dropWhile_cons] at h
    cases hpc : p c with
    | true =>
      rw [hpc, if_pos rfl] at h
      exact ih d r' h
    | false =>
      rw [hpc, if_neg (by simp)] at h
      injection h with h1 h2
      rw [← h1]
      exact hpc

theorem takeWhile_all_append (p : Char → Bool) :
    ∀ n rest : PyStr, (∀ c ∈ n, p c = true) →
      (∀ (d : Char) (r' : PyStr), rest = d :: r' → p d = false) →
      (n ++ rest).takeWhile p = n ∧ (n ++ rest).dropWhile p = rest := by
  intro n
  induction n with
  | nil =>
    intro rest _ hr
    cases rest with
    | nil => exact ⟨rfl, rfl⟩
    | cons d r' =>
      have hd : p d = false := hr d r' rfl
      constructor
      · rw [List.nil_append, List.takeWhile_cons, hd]
        simp
      · rw [List.nil_append, List.dropWhile_cons, hd]
        simp
  | cons a nn ih =>
    intro rest hn hr
    have ha : p a = true := hn a (by simp)
    have hrec := ih rest (fun c hc => hn c (by simp [hc])) hr
    constructor
    · rw [List.cons_append, List.takeWhile_cons, ha, if_pos rfl, hrec.1]
    · rw [List.cons_append, List.dropWhile_cons, ha, if_pos rfl, hrec.2]

theorem matchCveAt_greedy {s m rest : PyStr} (h : matchCveAt s = some (m, rest)) :
    ∀ (d : Char) (r' : PyStr), rest = d :: r' → pyDigit d = false := by
  unfold matchCveAt at h
  split_ifs at h with h1 h2 h3 h4
  simp only [Option.some.injEq, Prod.mk.injEq] at h
  intro d r' hdr
  exact head_dropWhile_false pyDigit (s.drop 9) d r' (h.2.trans hdr)

theorem matchCveAt_of_decl {m rest : PyStr} (hd : cveDecl m)
    (hg : ∀ (d : Char) (r' : PyStr), rest = d :: r' → pyDigit d = false) :
    matchCveAt (m ++ rest) = some (m, rest) := by
  obtain ⟨y, n, hm, h4, hyd, hn, hnd⟩ := hd
  have hnall := List.all_eq_true.mp hnd
  have htwdw := takeWhile_all_append pyDigit n rest hnall hg
  subst hm
  have hms : ('C' :: 'V' :: 'E' :: '-' :: (y ++ '-' :: n) : PyStr) ++ rest =
      'C' :: 'V' :: 'E' :: '-' :: (y ++ '-' :: (n ++ rest)) := by simp
  rw [hms]
  have ht4 : (('C' :: 'V' :: 'E' :: '-' :: (y ++ '-' :: (n ++ rest))) : PyStr).take 4 =
      ['C', 'V', 'E', '-'] := rfl
  have hd4 : (('C' :: 'V' :: 'E' :: '-' :: (y ++ '-' :: (n ++ rest))) : PyStr).drop 4 =
      y ++ '-' :: (n ++ rest) := rfl
  have hyt : (y ++ '-' :: (n ++ rest)).take 4 = y := by
    rw [← h4]
    exact List.take_left y ('-' :: (n ++ rest))
  have hyd2 : (y ++ '-' :: (n ++ rest)).drop 4 = '-' :: (n ++ rest) := by
    rw [← h4]
    exact List.drop_left y ('-' :: (n ++ rest))
  have hd8 : (('C' :: 'V' :: 'E' :: '-' :: (y ++ '-' :: (n ++ rest))) : PyStr).drop 8 =
      '-' :: (n ++ rest) := by
    have hdd : (('C' :: 'V' :: 'E' :: '-' :: (y ++ '-' :: (n ++ rest))) : PyStr).drop 8 =
        ((('C' :: 'V' :: 'E' :: '-' :: (y ++ '-' :: (n ++ rest))) : PyStr).drop 4).drop 4 := by
      rw [List.drop_drop]
    rw [hdd, hd4, hyd2]
  have hd9 : (('C' :: 'V' :: 'E' :: '-' :: (y ++ '-' :: (n ++ rest))) : PyStr).drop 9 =
      n ++ rest := by
    have hdd : (('C' :: 'V' :: 'E' :: '-' :: (y ++ '-' :: (n ++ rest))) : PyStr).drop 9 =
        ((('C' :: 'V' :: 'E' :: '-' :: (y ++ '-' :: (n ++ rest))) : PyStr).drop 8).drop 1 := by
      rw [List.drop_drop]
    rw [hdd, hd8]
    rfl
  have ht9 : (('C' :: 'V' :: 'E' :: '-' :: (y ++ '-' :: (n ++ rest))) : PyStr).take 9 =
      'C' :: 'V' :: 'E' :: '-' :: (y ++ ['-']) := by
    show 'C' :: 'V' :: 'E' :: '-' :: ((y ++ '-' :: (n ++ rest)).take 5) = _
    have h5 := List.take_add (y ++ '-' :: (n ++ rest)) 4 1
    norm_num at h5
    rw [h5, hyt, hyd2]
    rfl
  unfold matchCveAt
  rw [ht4, hd4, hyt, hd8, hd9, ht9, htwdw.1, htwdw.2]
  simp [h4, hyd, hn, List.append_assoc]

theorem cveDecl_ne_nil {m : PyStr} (h : cveDecl m) : m ≠ [] := by
  obtain ⟨y, n, hm, -⟩ := h
  simp [hm]

theorem matchCveAt_ne_none_of_starts {s : PyStr} (h : StartsMatch s) :
    matchCveAt s ≠ none := by
  obtain ⟨m, rest, hs, hd⟩ := h
  obtain ⟨y, n, hm, h4, hyd, hn, hnd⟩ := hd
  have hdecl2 : cveDecl (m ++ rest.takeWhile pyDigit) := by
    refine ⟨y, n ++ rest.takeWhile pyDigit, ?_, h4, hyd, ?_, ?_⟩
    · rw [hm]
      simp
    · intro hcontra
      exact hn ((List.append_eq_nil).mp hcontra).1
    · rw [List.all_append, hnd, List.all_takeWhile]
      rfl
  have hg2 : ∀ (d : Char) (r' : PyStr), rest.dropWhile pyDigit = d :: r' →
      pyDigit d = false :=
    fun d r' hdr => head_dropWhile_false pyDigit rest d r' hdr
  have hs2 : s = (m ++ rest.takeWhile pyDigit) ++ rest.dropWhile pyDigit := by
    rw [hs, List.append_assoc, List.takeWhile_append_dropWhile]
  rw [hs2, matchCveAt_of_decl hdecl2 hg2]
  simp

theorem findAllDecl_nil : FindAllDecl [] [] := by
  intro p1 p2 hsplit
  rintro ⟨m, rest, hmr, hd⟩
  have hp2 : p2 = [] := ((List.append_eq_nil).mp hsplit.symm).2
  rw [hp2] at hmr
  exact cveDecl_ne_nil hd ((List.append_eq_nil).mp hmr.symm).1

theorem findAllDecl_cons {c : Char} {cs : PyStr} {ms : List PyStr}
    (hns : ¬StartsMatch (c :: cs)) (h : FindAllDecl cs ms) :
    FindAllDecl (c :: cs) ms := by
  cases ms with
  | nil =>
    intro p1 p2 hsplit
    cases p1 with
    | nil =>
      rw [List.nil_append] at hsplit
      subst hsplit
      exact hns
    | cons a p1' =>
      injection hsplit with h1 h2
      exact h p1' p2 h2
  | cons m ms' =>
    obtain ⟨pre, rest, hs, hd, hg, hlm, hrec⟩ := h
    refine ⟨c :: pre, rest, ?_, hd, hg, ?_, hrec⟩
    · rw [List.cons_append, hs]
    · intro p1 p2 hsplit hne
      cases p1 with
      | nil =>
        rw [List.nil_append] at hsplit
        subst hsplit
        rw [show ((c :: pre) ++ (m ++ rest) : PyStr) = c :: (pre ++ (m ++ rest))
          from rfl]
        rw [← hs]
        exact hns
      | cons a p1' =>
        injection hsplit with h1 h2
        exact hlm p1' p2 h2 hne

theorem findAllDecl_extract_aux : ∀ (k : Nat) (s : PyStr), s.length ≤ k →
    FindAllDecl s (extract_cve_ids s) := by
  intro k
  induction k with
  | zero =>
    intro s hs
    have hnil : s = [] := List.eq_nil_of_length_eq_zero (Nat.le_zero.mp hs)
    subst hnil
    rw [extract_cve_ids_nil]
    exact findAllDecl_nil
  | succ k ih =>
    intro s hs
    cases s with
    | nil =>
      rw [extract_cve_ids_nil]
      exact findAllDecl_nil
    | cons c cs =>
      cases h : matchCveAt (c :: cs) with
      | some pr =>
        obtain ⟨m, rest⟩ := pr
        obtain ⟨hseq, y, n, hm, hy4, hyd, hn, hnd⟩ := matchCveAt_spec h
        have hg := matchCveAt_greedy h
        have hrl : rest.length ≤ k := by
          have h1 : (c :: cs).length = m.length + rest.length := by
            rw [hseq, List.length_append]
          have h2 : 0 < m.length := List.length_pos.mpr (matchCveAt_m_ne_nil h)
          simp only [List.length_cons] at h1 hs
          omega
        rw [extract_cve_ids_cons_some h]
        refine ⟨[], rest, by simpa using hseq,
          ⟨y, n, hm, hy4, hyd, hn, hnd⟩, hg, ?_, ih rest hrl⟩
        intro p1 p2 hsplit hne
        exact absurd ((List.append_eq_nil).mp hsplit.symm).2 hne
      | none =>
        have hcl : cs.length ≤ k := by
          simp only [List.length_cons] at hs
          omega
        rw [extract_cve_ids_cons_none h]
        refine findAllDecl_cons ?_ (ih cs hcl)
        intro hsm
        exact matchCveAt_ne_none_of_starts hsm h

theorem greedy_match_unique {m1 rest1 m2 rest2 : PyStr}
    (he : m1 ++ rest1 = m2 ++ rest2)
    (h1 : cveDecl m1)
    (hg1 : ∀ (d : Char) (r' : PyStr), rest1 = d :: r' → pyDigit d = false)
    (h2 : cveDecl m2)
    (hg2 : ∀ (d : Char) (r' : PyStr), rest2 = d :: r' → pyDigit d = false) :
    m1 = m2 ∧ rest1 = rest2 := by
  obtain ⟨y1, n1, hm1, hy1, hyd1, hn1, hnd1⟩ := h1
  obtain ⟨y2, n2, hm2, hy2, hyd2, hn2, hnd2⟩ := h2
  subst hm1
  subst hm2
  simp only [List.cons_append, List.cons.injEq, true_and] at he
  rw [List.append_assoc, List.append_assoc] at he
  simp only [List.cons_append] at he
  obtain ⟨hy, htail2⟩ := List.append_inj he (hy1.trans hy2.symm)
  injection htail2 with hh1 hh2
  have t1 := takeWhile_all_append pyDigit n1 rest1 (List.all_eq_true.mp hnd1) hg1
  have t2 := takeWhile_all_append pyDigit n2 rest2 (List.all_eq_true.mp hnd2) hg2
  have hn12 : n1 = n2 := by rw [← t1.1, hh2, t2.1]
  have hr12 : rest1 = rest2 := by rw [← t1.2, hh2, t2.2]
  subst hy
  subst hn12
  exact ⟨rfl, hr12⟩

theorem findAllDecl_unique : ∀ (ms1 : List PyStr) (s : PyStr) (ms2 : List PyStr),
    FindAllDecl s ms1 → FindAllDecl s ms2 → ms1 = ms2 := by
  intro ms1
  induction ms1 with
  | nil =>
    intro s ms2 h1 h2
    cases ms2 with
    | nil => rfl
    | cons m2 ms2' =>
      obtain ⟨pre2, rest2, hs2, hd2, -, -, -⟩ := h2
      exact absurd ⟨m2, rest2, rfl, hd2⟩ (h1 pre2 (m2 ++ rest2) hs2)
  | cons m1 ms1' ih =>
    intro s ms2 h1 h2
    obtain ⟨pre1, rest1, hs1, hd1, hg1, hlm1, hrec1⟩ := h1
    cases ms2 with
    | nil =>
      exact absurd ⟨m1, rest1, rfl, hd1⟩ (h2 pre1 (m1 ++ rest1) hs1)
    | cons m2 ms2' =>
      obtain ⟨pre2, rest2, hs2, hd2, hg2, hlm2, hrec2⟩ := h2
      have hseq : pre1 ++ (m1 ++ rest1) = pre2 ++ (m2 ++ rest2) := hs1.symm.trans hs2
      have hlen : pre1.length = pre2.length := by
        rcases Nat.lt_trichotomy pre1.length pre2.length with hlt | heq | hgt
        · exfalso
          have h1t : (pre1 ++ (m1 ++ rest1)).take pre1.length = pre1 :=
            List.take_left pre1 (m1 ++ rest1)
          have h2t : (pre2 ++ (m2 ++ rest2)).take pre1.length =
              pre2.take pre1.length := List.take_append_of_le_length hlt.le
          rw [hseq] at h1t
          have hp1 : pre2.take pre1.length = pre1 := h2t.symm.trans h1t
          have ht : pre2 = pre1 ++ pre2.drop pre1.length := by
            conv_lhs => rw [← List.take_append_drop pre1.length pre2]
            rw [hp1]
          have htne : pre2.drop pre1.length ≠ [] := by
            intro hcontra
            have hlc := congrArg List.length hcontra
            rw [List.length_drop] at hlc
            simp at hlc
            omega
          have hX : m1 ++ rest1 = pre2.drop pre1.length ++ (m2 ++ rest2) := by
            have h' := hseq
            rw [ht, List.append_assoc] at h'
            exact List.append_cancel_left h'
          exact hlm2 pre1 (pre2.drop pre1.length) ht htne ⟨m1, rest1, hX.symm, hd1⟩
        · exact heq
        · exfalso
          have h1t : (pre2 ++ (m2 ++ rest2)).take pre2.length = pre2 :=
            List.take_left pre2 (m2 ++ rest2)
          have h2t : (pre1 ++ (m1 ++ rest1)).take pre2.length =
              pre1.take pre2.length := List.take_append_of_le_length (le_of_lt hgt)
          rw [← hseq] at h1t
          have hp1 : pre1.take pre2.length = pre2 := h2t.symm.trans h1t
          have ht : pre1 = pre2 ++ pre1.drop pre2.length := by
            conv_lhs => rw [← List.take_append_drop pre2.length pre1]
            rw [hp1]
          have htne : pre1.drop pre2.length ≠ [] := by
            intro hcontra
            have hlc := congrArg List.length hcontra
            rw [List.length_drop] at hlc
            simp at hlc
            omega
          have hX : m2 ++ rest2 = pre1.drop pre2.length ++ (m1 ++ rest1) := by
            have h' := hseq.symm
            rw [ht, List.append_assoc] at h'
            exact List.append_cancel_left h'
          exact hlm1 pre2 (pre1.drop pre2.length) ht htne ⟨m2, rest2, hX.symm, hd2⟩
      obtain ⟨hpre, htails⟩ := List.append_inj hseq hlen
      obtain ⟨hm12, hr12⟩ := greedy_match_unique htails hd1 hg1 hd2 hg2
      subst hm12
      subst hr12
      rw [ih rest1 ms2' hrec1 hrec2]

/-- C7: `extract_cve_ids` returns exactly the non-overlapping matches
of `CVE-\d{4}-\d+`, in left-to-right order of first appearance with
duplicates preserved: its output satisfies the declarative `re.findall`
reading `FindAllDecl` (every element is a greedy pattern match, no
match starts inside a skipped region, matching is resumed after each
match), that reading determines the output uniquely, and the empty
input yields the empty sequence; the function is total, hence never
fails. -/
theorem c7_extract_cve_ids_spec :
    (∀ s : PyStr, FindAllDecl s (extract_cve_ids s)) ∧
    (∀ (s : PyStr) (ms : List PyStr), FindAllDecl s ms → ms = extract_cve_ids s) ∧
    extract_cve_ids [] = [] :=
  ⟨fun s => findAllDecl_extract_aux s.length s le_rfl,
   fun s ms h => findAllDecl_unique ms s (extract_cve_ids s) h
     (findAllDecl_extract_aux s.length s le_rfl),
   rfl⟩

/-- Witness for C7: at a concrete input with a duplicated identifier,
the unique list satisfying the declarative reading is the computed
output, discharging the hypothesis via the theorem's first component
and concrete evaluation. -/
theorem c7_extract_cve_ids_spec_wit :
    ["CVE-2020-123".data, "CVE-2020-123".data] =
      extract_cve_ids ("xCVE-2020-123 and CVE-2020-123!".data) :=
  c7_extract_cve_ids_spec.2.1 ("xCVE-2020-123 and CVE-2020-123!".data)
    ["CVE-2020-123".data, "CVE-2020-123".data]
    (by
      have he : extract_cve_ids ("xCVE-2020-123 and CVE-2020-123!".data) =
          ["CVE-2020-123".data, "CVE-2020-123".data] := by decide
      exact he ▸ c7_extract_cve_ids_spec.1 ("xCVE-2020-123 and CVE-2020-123!".data))

theorem fetchGo_allfail (fetch : Nat → Option Page) (r : RawRef)
    (h : ∀ a, fetch a = none) :
    ∀ rem attempt : Nat, fetchGo fetch r attempt rem = (none, rem) := by
  intro rem
  induction rem with
  | zero => intro attempt; rfl
  | succ rem ih =>
    intro attempt
    simp [fetchGo, h attempt, ih (attempt + 1)]

/-- C1: on a reference whose fetch capability fails on every attempt,
the detail fetcher makes exactly `retries` fetch calls and returns
`none`, emitting no record; if the first attempt succeeds, it makes
exactly one fetch call and returns the saved record. -/
theorem c1_fetch_retry (fetch : Nat → Option Page) (r : RawRef) (retries : Nat) :
    ((∀ a, fetch a = none) →
      fetch_and_save_cve_json fetch r retries = (none, retries)) ∧
    (∀ page, fetch 1 = some page → 1 ≤ retries →
      fetch_and_save_cve_json fetch r retries = (some (mkSavedCve r page), 1)) := by
  constructor
  · intro h
    exact fetchGo_allfail fetch r h retries 1
  · intro page hp hr
    obtain ⟨rem, rfl⟩ : ∃ rem, retries = rem + 1 := ⟨retries - 1, by omega⟩
    simp [fetch_and_save_cve_json, fetchGo, hp]

/-- Witness for C1: with three attempts, a permanently failing fetch
makes 3 calls and emits nothing, while an immediately succeeding fetch
makes exactly one call and returns the record. -/
theorem c1_fetch_retry_wit :
    fetch_and_save_cve_json (fun _ => none)
        ⟨"CVE-2021-9999".data, "1.0".data, "sum".data, "http://a/b".data⟩ 3 =
      (none, 3) ∧
    fetch_and_save_cve_json (fun _ => some ["Heap overflow.".data])
        ⟨"CVE-2021-9999".data, "1.0".data, "sum".data, "http://a/b".data⟩ 3 =
      (some (mkSavedCve
        ⟨"CVE-2021-9999".data, "1.0".data, "sum".data, "http://a/b".data⟩
        ["Heap overflow.".data]), 1) :=
  ⟨(c1_fetch_retry (fun _ => none) _ 3).1 (fun _ => rfl),
   (c1_fetch_retry (fun _ => some ["Heap overflow.".data]) _ 3).2
     ["Heap overflow.".data] rfl (by decide)⟩

/-- C2 (amended): the saved description equals the joined paragraph
texts when the join is non-empty and falls back to the reference
summary exactly when the join is empty; the join is empty exactly when
the page has no paragraphs or a single paragraph with empty visible
text. -/
theorem c2_description_spec (r : RawRef) (page : Page) :
    (mkSavedCve r page).description =
      (if joinSpaces page = [] then r.summary else joinSpaces page) ∧
    (joinSpaces page = [] ↔ page = [] ∨ page = [[]]) := by
  refine ⟨rfl, ?_⟩
  match page with
  | [] => simp [joinSpaces]
  | [p] => simp [joinSpaces]
  | p :: q :: ps => simp [joinSpaces]

/-- Counterexample to C2 as stated: a detail page with one paragraph of
empty visible text still falls back to the summary, so the description
differs from the joined paragraph texts although the page yields a
paragraph. -/
theorem c2_description_cex :
    (mkSavedCve ⟨"CVE-2020-1234".data, "4.1".data, "fallback summary".data,
        "http://x/a".data⟩ [[]]).description = "fallback summary".data ∧
    ([[]] : Page) ≠ [] ∧ joinSpaces [[]] = [] ∧
    "fallback summary".data ≠ ([] : PyStr) := by
  decide

theorem mkCVE_eq_none_iff (cid av desc url : Option PyStr) :
    mkCVE cid av desc url = none ↔
      cid = none ∨ av = none ∨ desc = none ∨
      (∃ c, cid = some c ∧ cveExact c = false) ∨
      (∃ u, url = some u ∧ isHttpUrl u = false) := by
  cases cid with
  | none => simp [mkCVE]
  | some c =>
    cases av with
    | none => simp [mkCVE]
    | some a =>
      cases desc with
      | none => simp [mkCVE]
      | some d =>
        rcases Bool.eq_false_or_eq_true (cveExact c) with hc | hc
        · cases url with
          | none => simp [mkCVE, hc]
          | some u => simp [mkCVE, hc]
        · cases url with
          | none => simp [mkCVE, hc]
          | some u =>
            rcases Bool.eq_false_or_eq_true (isHttpUrl u) with hu | hu
            · simp [mkCVE, hc, hu]
            · simp [mkCVE, hc, hu]

theorem pyGet_eq_none_iff (f : Option (Option PyStr)) (d : PyStr) :
    pyGet f d = none ↔ f = some none := by
  cases f with
  | none => simp [pyGet]
  | some v => cases v <;> simp [pyGet]

theorem mkCVE_some_spec {cid av desc url : Option PyStr} {c : CVE}
    (h : mkCVE cid av desc url = some c) :
    cid = some c.cve_id ∧ cveExact c.cve_id = true ∧
    av = some c.affected_version ∧ desc = some c.description ∧
    url = c.source_url := by
  cases cid with
  | none => exact absurd h (by simp [mkCVE])
  | some cv =>
    cases av with
    | none => exact absurd h (by simp [mkCVE])
    | some a =>
      cases desc with
      | none => exact absurd h (by simp [mkCVE])
      | some d =>
        cases hc : cveExact cv with
        | false =>
          simp only [mkCVE] at h
          rw [hc] at h
          simp at h
        | true =>
          simp only [mkCVE] at h
          rw [hc] at h
          rw [if_pos rfl] at h
          cases url with
          | none =>
            obtain rfl : (⟨cv, a, d, none⟩ : CVE) = c := Option.some.inj h
            exact ⟨rfl, hc, rfl, rfl, rfl⟩
          | some u =>
            cases hu : isHttpUrl u with
            | false =>
              rw [show (match (some u : Option PyStr) with
                  | none => some (⟨cv, a, d, none⟩ : CVE)
                  | some u => if isHttpUrl u = true then some ⟨cv, a, d, some u⟩
                    else none) =
                  (if isHttpUrl u = true then some (⟨cv, a, d, some u⟩ : CVE)
                    else none) from rfl] at h
              rw [hu] at h
              simp at h
            | true =>
              rw [show (match (some u : Option PyStr) with
                  | none => some (⟨cv, a, d, none⟩ : CVE)
                  | some u => if isHttpUrl u = true then some ⟨cv, a, d, some u⟩
                    else none) =
                  (if isHttpUrl u = true then some (⟨cv, a, d, some u⟩ : CVE)
                    else none) from rfl] at h
              rw [hu] at h
              rw [if_pos rfl] at h
              obtain rfl : (⟨cv, a, d, some u⟩ : CVE) = c := Option.some.inj h
              exact ⟨rfl, hc, rfl, rfl, rfl⟩

theorem mkCVE_av_none (cid desc url : Option PyStr) :
    mkCVE cid none desc url = none := by
  cases cid <;> cases desc <;> rfl

theorem mkCVE_desc_none (cid av url : Option PyStr) :
    mkCVE cid av none url = none := by
  cases cid <;> cases av <;> rfl

/-- C3 (amended): a missing `affected_version` or `description` key is
coerced to its non-empty sentinel and does not cause rejection, but a
key present with JSON `null` is rejected by validation. -/
theorem c3_sentinel_spec :
    (∀ j : RawJson, j.affected_version = none → j.description = none →
      ∀ c, generate_cve_content j = some c →
        c.affected_version = unknownStr ∧ c.description = noDescStr) ∧
    (∀ (j : RawJson) (cid : PyStr), j.affected_version = none → j.description = none →
      j.cve_id = some (some cid) → cveExact cid = true → j.source_url = none →
      generate_cve_content j = some ⟨cid, unknownStr, noDescStr, none⟩) ∧
    unknownStr ≠ [] ∧ noDescStr ≠ [] ∧
    (∀ j : RawJson, j.affected_version = some none ∨ j.description = some none →
      generate_cve_content j = none) := by
  refine ⟨?_, ?_, by decide, by decide, ?_⟩
  · intro j hav hde c h
    unfold generate_cve_content at h
    obtain ⟨-, -, h2, h3, -⟩ := mkCVE_some_spec h
    rw [hav] at h2
    rw [hde] at h3
    exact ⟨(Option.some.inj h2).symm, (Option.some.inj h3).symm⟩
  · intro j cid hav hde hcid hex hsu
    obtain ⟨f1, f2, f3, f4⟩ := j
    simp only at hav hde hcid hsu
    subst hav
    subst hde
    subst hcid
    subst hsu
    simp [generate_cve_content, pyGet, pyGetOpt, mkCVE, hex]
  · intro j h
    obtain ⟨f1, f2, f3, f4⟩ := j
    rcases h with h | h
    · simp only at h
      subst h
      simp [generate_cve_content, pyGet, mkCVE_av_none]
    · simp only at h
      subst h
      simp [generate_cve_content, pyGet, mkCVE_desc_none]

/-- Witness for C3: a candidate with both keys missing and a valid
identifier is accepted with the sentinel field values. -/
theorem c3_sentinel_spec_wit :
    generate_cve_content ⟨some (some "CVE-2022-777".data), none, none, none⟩ =
      some ⟨"CVE-2022-777".data, unknownStr, noDescStr, none⟩ :=
  c3_sentinel_spec.2.1 ⟨some (some "CVE-2022-777".data), none, none, none⟩
    ("CVE-2022-777".data) rfl rfl rfl (by decide) rfl

/-- Counterexample to C3 as stated: a `description` key present with
JSON `null` is rejected by validation, not coerced to the sentinel. -/
theorem c3_sentinel_cex :
    generate_cve_content ⟨some (some "CVE-2020-1234".data),
        some (some "4.1".data), some none, none⟩ = none := by
  decide

/-- C4 (amended): validation rejects a candidate exactly when its
identifier (after substituting the default for a missing key) does not
match the anchored pattern, or any of its three string keys is present
with JSON `null`, or its `source_url` is present non-null and is not a
well-formed absolute URL; the listed malformed identifiers are all
rejected by the anchored pattern. -/
theorem c4_validate_reject_iff :
    (∀ j : RawJson,
      generate_cve_content j = none ↔
        j.cve_id = some none ∨ j.affected_version = some none ∨
        j.description = some none ∨
        (∃ c, pyGet j.cve_id unknownStr = some c ∧ cveExact c = false) ∨
        (∃ u, pyGetOpt j.source_url = some u ∧ isHttpUrl u = false)) ∧
    cveExact "CVE-20-1".data = false ∧ cveExact "cve-2020-1".data = false ∧
    cveExact "CVE-2020-".data = false := by
  refine ⟨fun j => ?_, by decide, by decide, by decide⟩
  unfold generate_cve_content
  rw [mkCVE_eq_none_iff, pyGet_eq_none_iff, pyGet_eq_none_iff, pyGet_eq_none_iff]

/-- Counterexample to C4 as stated: a candidate with a well-formed
identifier and no source URL is still rejected, because its
`affected_version` key is present with JSON `null`. -/
theorem c4_validate_reject_cex :
    generate_cve_content ⟨some (some "CVE-2021-5".data), some none,
        some (some "d".data), none⟩ = none ∧
    cveExact "CVE-2021-5".data = true ∧
    (⟨some (some "CVE-2021-5".data), some none, some (some "d".data), none⟩ :
        RawJson).source_url = none := by
  decide

/-- C5: a list item whose anchor text contains k identifiers yields
exactly k raw references differing only in the identifier, whose
identifier projection is exactly the extracted identifier list in
order; and the parse output decomposes along document order of
headings, and of list items within a heading. -/
theorem c5_parse_per_item (ujoin : PyStr → PyStr → PyStr) (base : PyStr) :
    (∀ (version : PyStr) (li : LItem) (a : Anchor) (href : PyStr),
      li.anchor = some a → a.href = some href → href ≠ [] →
      (item_refs ujoin base version li).map RawRef.cve_id = extract_cve_ids a.text ∧
      ∀ r ∈ item_refs ujoin base version li,
        r.version = version ∧ r.summary = li.text ∧ r.link = ujoin base href) ∧
    (∀ (pre : Bulletin) (h : Heading) (post : Bulletin),
      parse_vulnerabilities ujoin base (pre ++ h :: post) =
        parse_vulnerabilities ujoin base pre ++ heading_refs ujoin base h ++
          parse_vulnerabilities ujoin base post) ∧
    (∀ (txt : PyStr) (pre : List LItem) (li : LItem) (post : List LItem),
      heading_refs ujoin base ⟨txt, some (pre ++ li :: post)⟩ =
        pre.flatMap (item_refs ujoin base txt) ++ item_refs ujoin base txt li ++
          post.flatMap (item_refs ujoin base txt)) := by
  refine ⟨?_, ?_, ?_⟩
  · intro version li a href ha hh hne
    simp only [item_refs, ha, hh]
    rw [if_neg hne]
    constructor
    · rw [List.map_map]
      exact List.map_id'' (fun _ => rfl) _
    · intro r hr
      simp only [List.mem_map] at hr
      obtain ⟨cid, hcid, rfl⟩ := hr
      exact ⟨rfl, rfl, rfl⟩
  · intro pre h post
    unfold parse_vulnerabilities
    simp [List.append_assoc]
  · intro txt pre li post
    unfold heading_refs
    simp [List.append_assoc]

/-- Witness for C5: an item naming two identifiers yields exactly those
two references. -/
theorem c5_parse_per_item_wit :
    (item_refs (fun _ h => h) "b".data "1.0".data
        ⟨some ⟨some "/adv/1.html".data, "CVE-2020-1 and CVE-2020-2".data⟩,
          "item text".data⟩).map RawRef.cve_id =
      extract_cve_ids "CVE-2020-1 and CVE-2020-2".data :=
  ((c5_parse_per_item (fun _ h => h) "b".data).1 "1.0".data
    ⟨some ⟨some "/adv/1.html".data, "CVE-2020-1 and CVE-2020-2".data⟩,
      "item text".data⟩
    ⟨some "/adv/1.html".data, "CVE-2020-1 and CVE-2020-2".data⟩
    "/adv/1.html".data rfl rfl (by decide)).1

/-- C6: a heading with no following list contributes zero references; a
list item with no anchor, an anchor without target, or an empty (falsy)
target is skipped; and a bulletin all of whose headings lack a
following list parses to the empty result.  `parse_vulnerabilities` is
a total function, so absent structure degrades to a possibly-empty
result rather than an exception. -/
theorem c6_parse_degrade (ujoin : PyStr → PyStr → PyStr) (base : PyStr) :
    (∀ txt : PyStr, heading_refs ujoin base ⟨txt, none⟩ = []) ∧
    (∀ v txt : PyStr, item_refs ujoin base v ⟨none, txt⟩ = []) ∧
    (∀ v txt atext : PyStr, item_refs ujoin base v ⟨some ⟨none, atext⟩, txt⟩ = []) ∧
    (∀ v txt atext : PyStr, item_refs ujoin base v ⟨some ⟨some [], atext⟩, txt⟩ = []) ∧
    (∀ doc : Bulletin, (∀ h ∈ doc, h.nextUl = none) →
      parse_vulnerabilities ujoin base doc = []) := by
  refine ⟨fun txt => rfl, fun v txt => rfl, fun v txt atext => rfl,
    fun v txt atext => rfl, ?_⟩
  intro doc hdoc
  unfold parse_vulnerabilities
  rw [List.flatMap_eq_nil_iff]
  intro h hh
  obtain ⟨txt, ul⟩ := h
  have : ul = none := hdoc ⟨txt, ul⟩ hh
  subst this
  rfl

/-- Witness for C6: a one-heading bulletin with no list parses to []. -/
theorem c6_parse_degrade_wit :
    parse_vulnerabilities (fun _ h => h) "b".data [⟨"4.1".data, none⟩] = [] :=
  (c6_parse_degrade (fun _ h => h) "b".data).2.2.2.2 [⟨"4.1".data, none⟩] (by decide)

theorem replSlash_id {s : PyStr} (h : ∀ c ∈ s, c ≠ '/') : replSlash s = s := by
  unfold replSlash
  have he : s.map (fun c => if c = '/' then '_' else c) = s.map id :=
    List.map_congr_left (fun c hc => by simp [h c hc])
  rw [he, List.map_id]

theorem collapseWs_id : ∀ s : PyStr, (∀ c ∈ s, pyWs c = false) →
    ∀ b, collapseWs b s = s := by
  intro s
  induction s with
  | nil => intro _ b; rfl
  | cons c cs ih =>
    intro h b
    have hc : pyWs c = false := h c (by simp)
    simp [collapseWs, hc, ih (fun x hx => h x (by simp [hx])) false]

theorem dropWhile_us_id {s : PyStr} (h : s.head? ≠ some '_') :
    s.dropWhile (fun c => c = '_') = s := by
  cases s with
  | nil => rfl
  | cons c cs =>
    have hc : ¬(c = '_') := by simpa using h
    rw [List.dropWhile_cons]
    simp [hc]

theorem stripUnderscores_id {s : PyStr} (h1 : s.head? ≠ some '_')
    (h2 : s.getLast? ≠ some '_') : stripUnderscores s = s := by
  unfold stripUnderscores
  rw [dropWhile_us_id h1]
  rw [dropWhile_us_id (by rw [List.head?_reverse]; exact h2)]
  exact List.reverse_reverse s

theorem head?_dropWhile_us : ∀ s : PyStr,
    (s.dropWhile (fun c => c = '_')).head? ≠ some '_' := by
  intro s
  induction s with
  | nil => simp
  | cons c cs ih =>
    rw [List.dropWhile_cons]
    by_cases hc : c = '_'
    · simpa [hc] using ih
    · simp [hc]

theorem mem_stripUnderscores {c : Char} {s : PyStr} (h : c ∈ stripUnderscores s) :
    c ∈ s := by
  unfold stripUnderscores at h
  have h1 := List.mem_reverse.mp h
  have h2 := List.Sublist.mem h1 (List.dropWhile_sublist _)
  have h3 := List.mem_reverse.mp h2
  exact List.Sublist.mem h3 (List.dropWhile_sublist _)

theorem head?_stripTrailing (p : Char → Bool) (t : PyStr) :
    ((t.reverse.dropWhile p).reverse).head? = none ∨
      ((t.reverse.dropWhile p).reverse).head? = t.head? := by
  have key : (t.reverse.dropWhile p).reverse ++ (t.reverse.takeWhile p).reverse = t := by
    rw [← List.reverse_append, List.takeWhile_append_dropWhile, List.reverse_reverse]
  cases hd : (t.reverse.dropWhile p).reverse with
  | nil => exact Or.inl rfl
  | cons a l =>
    right
    rw [← key, hd]
    rfl

theorem safe_filename_chars : ∀ s : PyStr,
    (∀ c ∈ safe_filename s, fnameChar c = true) ∧
    (safe_filename s).head? ≠ some '_' ∧ (safe_filename s).getLast? ≠ some '_' := by
  intro s
  unfold safe_filename
  refine ⟨?_, ?_, ?_⟩
  · intro c hc
    exact List.of_mem_filter (mem_stripUnderscores hc)
  · unfold stripUnderscores
    rcases head?_stripTrailing (fun c => c = '_')
        (((collapseWs false (replSlash s)).filter fnameChar).dropWhile
          (fun c => c = '_')) with h | h
    · rw [h]
      simp
    · rw [h]
      exact head?_dropWhile_us _
  · unfold stripUnderscores
    rw [List.getLast?_reverse]
    exact head?_dropWhile_us _

theorem pyDigit_props {c : Char} (h : pyDigit c = true) :
    pyWs c = false ∧ c ≠ '/' ∧ c ≠ '_' ∧ fnameChar c = true := by
  refine ⟨?_, ?_, ?_, ?_⟩
  · cases hw : pyWs c with
    | false => rfl
    | true =>
      exfalso
      simp only [pyWs, Bool.or_eq_true, decide_eq_true_eq] at hw
      rcases hw with ((((hc | hc) | hc) | hc) | hc) | hc <;> subst hc <;>
        exact absurd h (by decide)
  · intro hc
    subst hc
    exact absurd h (by decide)
  · intro hc
    subst hc
    exact absurd h (by decide)
  · unfold fnameChar
    unfold pyDigit at h
    rw [h]
    simp

theorem cveExact_chars {s : PyStr} (h : cveExact s = true) :
    (∀ c ∈ s, c ≠ '/' ∧ pyWs c = false ∧ fnameChar c = true) ∧
    s.head? = some 'C' ∧ s.getLast? ≠ some '_' := by
  obtain ⟨y, n, hs, h4, hyd, hn, hnd⟩ := cveExact_decl h
  have hyall := List.all_eq_true.mp hyd
  have hnall := List.all_eq_true.mp hnd
  subst hs
  refine ⟨?_, rfl, ?_⟩
  · intro c hc
    simp only [List.mem_cons, List.mem_append] at hc
    have hgood : c = 'C' ∨ c = 'V' ∨ c = 'E' ∨ c = '-' ∨ pyDigit c = true := by
      rcases hc with hc | hc | hc | hc | hc | hc | hc
      · exact Or.inl hc
      · exact Or.inr (Or.inl hc)
      · exact Or.inr (Or.inr (Or.inl hc))
      · exact Or.inr (Or.inr (Or.inr (Or.inl hc)))
      · exact Or.inr (Or.inr (Or.inr (Or.inr (hyall c hc))))
      · exact Or.inr (Or.inr (Or.inr (Or.inl hc)))
      · exact Or.inr (Or.inr (Or.inr (Or.inr (hnall c hc))))
    rcases hgood with rfl | rfl | rfl | rfl | hdig
    · exact ⟨by decide, by decide, by decide⟩
    · exact ⟨by decide, by decide, by decide⟩
    · exact ⟨by decide, by decide, by decide⟩
    · exact ⟨by decide, by decide, by decide⟩
    · obtain ⟨hw, hsl, hus, hf⟩ := pyDigit_props hdig
      exact ⟨hsl, hw, hf⟩
  · have hrw : ('C' :: 'V' :: 'E' :: '-' :: (y ++ '-' :: n) : PyStr) =
        ('C' :: 'V' :: 'E' :: '-' :: y) ++ ('-' :: n) := rfl
    rw [hrw, List.getLast?_append_of_ne_nil _ (by simp)]
    cases n with
    | nil => exact absurd rfl hn
    | cons b l =>
      rw [List.getLast?_cons_cons]
      have hne : (b :: l : PyStr) ≠ [] := by simp
      rw [List.getLast?_eq_getLast _ hne]
      intro hEq
      have h1 : (b :: l : PyStr).getLast hne = '_' := Option.some.inj hEq
      have h2 : pyDigit '_' = true := h1 ▸ hnall _ (List.getLast_mem hne)
      exact absurd h2 (by decide)

/-- C10: `safe_filename` is the identity on strings matching the
anchored CVE pattern; hence the JSON filename stem and the raw
identifier used for the `.xml`, `.sol` and `.vck` filenames coincide
for every validated record; and on arbitrary input the result contains
only characters in the allowed class `[A-Za-z0-9_.-]` and has no
leading or trailing underscore. -/
theorem c10_safe_filename_spec :
    (∀ s : PyStr, cveExact s = true → safe_filename s = s) ∧
    (∀ (j : RawJson) (c : CVE), generate_cve_content j = some c →
      safe_filename c.cve_id = c.cve_id) ∧
    (∀ s : PyStr, (∀ ch ∈ safe_filename s, fnameChar ch = true) ∧
      (safe_filename s).head? ≠ some '_' ∧ (safe_filename s).getLast? ≠ some '_') := by
  have hid : ∀ s : PyStr, cveExact s = true → safe_filename s = s := by
    intro s h
    obtain ⟨hall, hhead, hlast⟩ := cveExact_chars h
    unfold safe_filename
    rw [replSlash_id (fun c hc => (hall c hc).1)]
    rw [collapseWs_id s (fun c hc => (hall c hc).2.1) false]
    rw [List.filter_eq_self.mpr (fun c hc => (hall c hc).2.2)]
    exact stripUnderscores_id (by rw [hhead]; simp) hlast
  refine ⟨hid, ?_, safe_filename_chars⟩
  intro j c h
  unfold generate_cve_content at h
  exact hid c.cve_id (mkCVE_some_spec h).2.1

/-- Witness for C10: the identity holds at a concrete well-formed
identifier. -/
theorem c10_safe_filename_spec_wit :
    safe_filename "CVE-2020-1234".data = "CVE-2020-1234".data :=
  c10_safe_filename_spec.1 "CVE-2020-1234".data (by decide)

/-- C9: two renderings of the same validated record agree on the `.xml`
and `.sol` documents and on the tag sequence of the `.vck` document;
every `.vck` field except `GENERATED_AT` is equal across the two runs,
and `GENERATED_AT` carries the run timestamp followed by `Z`. -/
theorem c9_render_deterministic (c : CVE) (t1 t2 : PyStr) :
    (render_all c t1).1 = (render_all c t2).1 ∧
    (render_all c t1).2.1 = (render_all c t2).2.1 ∧
    (render_all c t1).2.2.map Prod.fst = (render_all c t2).2.2.map Prod.fst ∧
    (∀ k : PyStr, k ≠ "GENERATED_AT".data →
      lookupTag k (render_all c t1).2.2 = lookupTag k (render_all c t2).2.2) ∧
    lookupTag "GENERATED_AT".data (render_all c t1).2.2 = some (t1 ++ ['Z']) := by
  refine ⟨rfl, rfl, rfl, ?_, ?_⟩
  · intro k hk
    simp only [render_all, render_vck, lookupTag]
    split_ifs <;> simp_all
  · simp only [render_all, render_vck, lookupTag]
    rw [if_neg (by decide), if_neg (by decide), if_neg (by decide),
      if_neg (by decide), if_neg (by decide)]
    simp

/-- Witness for C9: the `ID` field agrees across two renderings of the
same record at different timestamps. -/
theorem c9_render_deterministic_wit :
    lookupTag "ID".data (render_all
        ⟨"CVE-2021-9999".data, "1.0".data, "Heap overflow.".data,
          some "http://a/1".data⟩ "2024-01-01T00:00:00".data).2.2 =
      lookupTag "ID".data (render_all
        ⟨"CVE-2021-9999".data, "1.0".data, "Heap overflow.".data,
          some "http://a/1".data⟩ "2025-02-02T00:00:00".data).2.2 :=
  (c9_render_deterministic
    ⟨"CVE-2021-9999".data, "1.0".data, "Heap overflow.".data,
      some "http://a/1".data⟩
    "2024-01-01T00:00:00".data "2025-02-02T00:00:00".data).2.2.2.1
    "ID".data (by decide)

theorem main_fold_spec (fetch : RawRef → Nat → Option Page) :
    ∀ (refs : List RawRef) (acc : List CVE × List Ev),
      (refs.foldl (fun (acc : List CVE × List Ev) r =>
          let pr := process_one (fetch r) r
          (acc.1 ++ pr.1.toList, acc.2 ++ pr.2)) acc) =
        (acc.1 ++ refs.filterMap (fun r => (process_one (fetch r) r).1),
         acc.2 ++ refs.flatMap (fun r => (process_one (fetch r) r).2)) := by
  intro refs
  induction refs with
  | nil => intro acc; simp
  | cons r rs ih =>
    intro acc
    rw [List.foldl_cons, ih]
    cases hp : (process_one (fetch r) r).1 with
    | none => simp [hp, List.filterMap_cons, List.flatMap_cons, List.append_assoc]
    | some c => simp [hp, List.filterMap_cons, List.flatMap_cons, List.append_assoc]

theorem process_one_no_aggregate (fetch : Nat → Option Page) (r : RawRef) :
    ∀ e ∈ (process_one fetch r).2, isAggregate e = false := by
  unfold process_one
  cases h1 : (fetch_and_save_cve_json fetch r 3).1 with
  | none => simp
  | some saved =>
    cases h2 : generate_cve_content saved.toRawJson with
    | none => simp [h2, isAggregate]
    | some c => simp [h2, isAggregate]

/-- C8: a run writes the product aggregate exactly once, as the last
event, with `TOTAL_CVES` equal to the number of validated records; the
validated records are exactly the per-reference successes in parse
order; and a reference whose fetch fails on every attempt contributes
no record and no write events, while the run still completes. -/
theorem c8_aggregate_spec (fetch : RawRef → Nat → Option Page)
    (ujoin : PyStr → PyStr → PyStr) (base : PyStr) (doc : Bulletin)
    (validated : List CVE) (trace : List Ev)
    (hrun : main_run fetch ujoin base doc = (validated, trace)) :
    trace.countP (fun e => isAggregate e) = 1 ∧
    trace.getLast? = some (Ev.aggregate validated.length) ∧
    validated = (parse_vulnerabilities ujoin base doc).filterMap
      (fun r => (process_one (fetch r) r).1) ∧
    (∀ r : RawRef, (∀ a, fetch r a = none) →
      process_one (fetch r) r = (none, [])) := by
  unfold main_run at hrun
  simp only [main_fold_spec fetch, List.nil_append, Prod.mk.injEq] at hrun
  obtain ⟨hv, ht⟩ := hrun
  subst hv
  subst ht
  refine ⟨?_, ?_, rfl, ?_⟩
  · rw [List.countP_append]
    have hz : ((parse_vulnerabilities ujoin base doc).flatMap
        (fun r => (process_one (fetch r) r).2)).countP (fun e => isAggregate e) = 0 := by
      rw [List.countP_eq_zero]
      intro e he
      obtain ⟨r, -, her⟩ := List.mem_flatMap.mp he
      simp [process_one_no_aggregate (fetch r) r e her]
    rw [hz]
    rfl
  · exact List.getLast?_concat _
  · intro r hr
    have hf : fetch_and_save_cve_json (fetch r) r 3 = (none, 3) :=
      fetchGo_allfail (fetch r) r hr 3 1
    unfold process_one
    rw [hf]

/-- Witness for C8: a one-reference bulletin whose fetch always fails
produces an empty validated set and a trace holding only the aggregate
write of zero. -/
theorem c8_aggregate_spec_wit :
    (([Ev.aggregate 0] : List Ev).countP (fun e => isAggregate e) = 1) ∧
    process_one ((fun (_ : RawRef) (_ : Nat) => (none : Option Page))
        ⟨"CVE-2020-7".data, "4.1".data, "t".data, "/a".data⟩)
      ⟨"CVE-2020-7".data, "4.1".data, "t".data, "/a".data⟩ = (none, []) :=
  have app := c8_aggregate_spec (fun _ _ => none) (fun _ h => h) "b".data
    [⟨"4.1".data, some [⟨some ⟨some "/a".data, "CVE-2020-7".data⟩, "t".data⟩]⟩]
    [] [Ev.aggregate 0] (by decide)
  ⟨app.1, app.2.2.2 ⟨"CVE-2020-7".data, "4.1".data, "t".data, "/a".data⟩
    (fun _ => rfl)⟩

end VCPlugin
